import Mathlib

/-!
Verification development for the treesearch engine: a CoNLL-U
dependency-tree query engine.  The core engine (CoNLL-U decoder, tree
builder, query compiler and matcher) is a native extension whose sources
are not part of the repository checkout; the definitions below are
modelled from the repository's specification (spec.md) and validated
against the expectations recorded in the repository's Python test suite.
-/

namespace Treesearch

/-! ## Basic character-list utilities -/

/-- Split a character list on a separator character.  Always returns at
least one (possibly empty) segment. -/
def splitOnChar (sep : Char) (l : List Char) : List (List Char) :=
  l.foldr
    (fun c acc =>
      match acc with
      | [] => [[c]]
      | cur :: rest => if c = sep then [] :: cur :: rest else (c :: cur) :: rest)
    [[]]

/-- Remove leading and trailing whitespace from a character list. -/
def trimChars (l : List Char) : List Char :=
  ((l.dropWhile Char.isWhitespace).reverse.dropWhile Char.isWhitespace).reverse

/-- Parse a nonempty all-digit character list as a natural number. -/
def digitsToNat (cs : List Char) : Option Nat :=
  if cs.isEmpty then none
  else if cs.all Char.isDigit then
    some (cs.foldl (fun acc c => acc * 10 + (c.toNat - 48)) 0)
  else none

/-- Insert a key/value pair into an ordered association list: a duplicate
key keeps its original position but takes the new value. -/
def insertKV (k v : String) : List (String × String) → List (String × String)
  | [] => [(k, v)]
  | (k', v') :: rest => if k = k' then (k, v) :: rest else (k', v') :: insertKV k v rest

/-- Look up a key in an ordered association list. -/
def lookupKV (k : String) : List (String × String) → Option String
  | [] => none
  | (k', v') :: rest => if k = k' then some v' else lookupKV k rest

/-! ## CoNLL-U data model

Modelled from the spec: §3 "DATA MODEL" and §4.1 "CoNLL-U decoder and
tree builder".  The native decoder and tree builder are not in the
repository sources. -/

/-- Modelled from the spec: the ten-column token line of a CoNLL-U
sentence, after field decoding but before index assignment.  `rid` is
the 1-based token identifier printed in column 1 and `rhead` the raw
1-based head pointer of column 7. -/
structure RawTok where
  rid : Nat
  form : String
  lemma' : String
  upos : String
  xpos : Option String
  feats : List (String × String)
  rhead : Nat
  deprel : String
  misc : List (String × String)
deriving Repr, DecidableEq, Inhabited

/-- Modelled from the spec: a word node of a dependency tree.  `id` is
the dense 0-based index, `tokenId` the 1-based CoNLL-U identifier, and
`head` the 0-based parent index (absent for the root). -/
structure Word where
  id : Nat
  tokenId : Nat
  form : String
  lemma' : String
  upos : String
  xpos : Option String
  feats : List (String × String)
  head : Option Nat
  deprel : String
  misc : List (String × String)
deriving Repr, DecidableEq, Inhabited

/-- Modelled from the spec: a complete dependency parse for one
sentence: the dense word array plus the ordered comment metadata. -/
structure Tree where
  words : List Word
  metadata : List (String × String)
deriving Repr, DecidableEq, Inhabited

/-- The word at an index, with a default for out-of-range access (the
matcher only ever uses in-range indices). -/
def Tree.wordAt (t : Tree) (i : Nat) : Word :=
  t.words.getD i default

/-- Modelled from the spec: `tree.word(i)` of the embedding contract.
An out-of-range index is an IndexError whose message names the index;
in range, the word at position `i` is returned. -/
def Tree.word (t : Tree) (i : Nat) : Except String Word :=
  match t.words.get? i with
  | some w => .ok w
  | none => .error ("word index out of range: " ++ toString i)

/-- Modelled from the spec: the `tree[i]` subscript form of the Python
binding delegates to the same lookup as `tree.word(i)`. -/
def Tree.getItem (t : Tree) (i : Nat) : Except String Word :=
  match t.words.get? i with
  | some w => .ok w
  | none => .error ("word index out of range: " ++ toString i)

/-- Modelled from the spec: `sentence_text` is the value of the `text`
metadata key if present. -/
def Tree.sentenceText (t : Tree) : Option String :=
  lookupKV "text" t.metadata

/-- Modelled from the spec: `word.parent()` resolves the word's
`head` index into the owning tree's dense array. -/
def Word.parent (t : Tree) (w : Word) : Option Word :=
  w.head.bind fun h => t.words.get? h

/-- Modelled from the spec: `children[i]` lists the child indices of
word `i` in ascending index order. -/
def Tree.childrenOf (t : Tree) (i : Nat) : List Nat :=
  (List.range t.words.length).filter fun j => (t.wordAt j).head = some i

/-! ## CoNLL-U line decoding (modelled from the spec, §4.1) -/

/-- A required string column: a lone underscore is kept as an empty
value. -/
def reqField (cs : List Char) : String :=
  if cs = ['_'] then "" else String.mk cs

/-- A nullable string column: a lone underscore signals absence. -/
def optField (cs : List Char) : Option String :=
  if cs = ['_'] then none else some (String.mk cs)

/-- Split a `name=value` pair at the first equals sign; a pair without
an equals sign yields an empty value. -/
def splitPair (cs : List Char) : String × String :=
  match splitOnChar '=' cs with
  | [] => (String.mk cs, "")
  | key :: rest =>
    (String.mk key, String.intercalate "=" (rest.map String.mk))

/-- Modelled from the spec: `feats` and `misc` are `|`-separated
`name=value` pairs; duplicate names take the last value; a lone
underscore yields an empty map. -/
def parsePairs (cs : List Char) : List (String × String) :=
  if cs = ['_'] || cs.isEmpty then []
  else
    (splitOnChar '|' cs).foldl
      (fun acc part =>
        let kv := splitPair part
        insertKV kv.1 kv.2 acc)
      []

/-- The decoder's classification of one nonblank CoNLL-U line. -/
inductive LineKind where
  /-- comment line, already reduced to its metadata key/value -/
  | meta (k v : String)
  /-- multi-word token range or empty node: dropped at parse time -/
  | skip
  /-- plain token line -/
  | tok (t : RawTok)
  /-- malformed token line (bad column count or numeric field) -/
  | malformed
deriving Repr, DecidableEq

/-- Modelled from the spec: a comment contributes `key = value`
metadata when it contains an equals sign, else it is stored verbatim
under the empty-string key. -/
def parseComment (cs : List Char) : LineKind :=
  let body := cs.drop 1
  match splitOnChar '=' body with
  | [] => .meta "" (String.mk (trimChars body))
  | [only] => .meta "" (String.mk (trimChars only))
  | key :: rest =>
    .meta (String.mk (trimChars key))
      (String.mk (trimChars ((String.intercalate "=" (rest.map String.mk)).data)))

/-- Modelled from the spec: a token line is ten tab-separated fields;
column 1 containing a dash or a dot marks a line that is discarded;
non-numeric ID or HEAD makes the sentence malformed. -/
def parseTokenLine (cs : List Char) : LineKind :=
  match splitOnChar '\t' cs with
  | [c1, c2, c3, c4, c5, c6, c7, c8, _, c10] =>
    if c1.contains '-' || c1.contains '.' then .skip
    else
      match digitsToNat c1, digitsToNat c7 with
      | some rid, some rhead =>
        .tok
          { rid := rid
            form := reqField c2
            lemma' := reqField c3
            upos := reqField c4
            xpos := optField c5
            feats := parsePairs c6
            rhead := rhead
            deprel := reqField c8
            misc := parsePairs c10 }
      | _, _ => .malformed
  | _ => .malformed

/-- Classify a nonblank line of a sentence block. -/
def classifyLine (cs : List Char) : LineKind :=
  if cs.head? = some '#' then parseComment cs else parseTokenLine cs

/-- Collect the metadata and raw tokens of a sentence block.  Any
malformed token line discards the whole sentence. -/
def collectLines : List (List Char) → Option (List (String × String) × List RawTok)
  | [] => some ([], [])
  | l :: rest =>
    match classifyLine l, collectLines rest with
    | _, none => none
    | .malformed, _ => none
    | .skip, some r => some r
    | .meta k v, some (m, ts) => some (insertKV k v m, ts)
    | .tok t, some (m, ts) => some (m, t :: ts)

/-! ## Tree building (modelled from the spec, §4.1) -/

/-- Modelled from the spec: the builder converts the raw head from
1-based token-id to 0-based index by subtracting one; token-id 0
becomes absent. -/
def mkWord (i : Nat) (tk : RawTok) : Word :=
  { id := i
    tokenId := tk.rid
    form := tk.form
    lemma' := tk.lemma'
    upos := tk.upos
    xpos := tk.xpos
    feats := tk.feats
    head := if tk.rhead = 0 then none else some (tk.rhead - 1)
    deprel := tk.deprel
    misc := tk.misc }

/-- Allocate the dense word array in line order, assigning 0-based
indices from `i` upwards. -/
def buildWords (i : Nat) : List RawTok → List Word
  | [] => []
  | tk :: rest => mkWord i tk :: buildWords (i + 1) rest

/-- Every head points within the tree and never at the word itself
(`n` is the word count, `i` the index of the first listed word). -/
def headsOkFrom (n : Nat) : Nat → List Word → Bool
  | _, [] => true
  | i, w :: rest =>
    (match w.head with
     | none => true
     | some h => decide (h < n) && decide (h ≠ i)) && headsOkFrom n (i + 1) rest

/-- Does the ancestor chain of word `i` reach the root within the given
fuel?  False answers flag a cycle (or a dangling head). -/
def reachesRoot (ws : List Word) : Nat → Nat → Bool
  | 0, _ => false
  | fuel + 1, i =>
    match (ws.getD i default).head with
    | none => true
    | some h => reachesRoot ws fuel h

/-- Modelled from the spec: a sentence is rejected when a head is out
of range or points at itself, when there is not exactly one root, or
when a cycle keeps a word from reaching the root. -/
def structuralOk (ws : List Word) : Bool :=
  headsOkFrom ws.length 0 ws &&
  ws.countP (fun w => w.head.isNone) = 1 &&
  (List.range ws.length).all (reachesRoot ws (ws.length + 1))

/-- Modelled from the spec: build the tree of one sentence block;
`none` when the block is malformed, empty, or structurally invalid. -/
def buildSentence (lines : List (List Char)) : Option Tree :=
  match collectLines lines with
  | none => none
  | some (meta, toks) =>
    if toks.isEmpty then none
    else
      let ws := buildWords 0 toks
      if structuralOk ws then some { words := ws, metadata := meta } else none

/-- The filtered token ids are consecutive starting from `k`. -/
def idsFrom (k : Nat) : List RawTok → Bool
  | [] => true
  | tk :: rest => decide (tk.rid = k) && idsFrom (k + 1) rest

/-- A well-formed CoNLL-U sentence block: it decodes without a
malformed line, has at least one token, its filtered token ids are the
consecutive 1-based identifiers the format prescribes, and the builder
accepts it. -/
def wellFormed (lines : List (List Char)) : Bool :=
  match collectLines lines with
  | none => false
  | some (_, toks) =>
    !toks.isEmpty && idsFrom 1 toks && (buildSentence lines).isSome

/-! ## Sentence grouping and treebank parsing -/

/-- A line consisting only of whitespace separates sentences. -/
def isBlankLine (l : List Char) : Bool :=
  l.all Char.isWhitespace

/-- Group the nonblank lines between blank lines into sentence blocks
(`cur` holds the pending block in reverse). -/
def groupGo : List (List Char) → List (List Char) → List (List (List Char))
  | [], cur => if cur.isEmpty then [] else [cur.reverse]
  | l :: rest, cur =>
    if isBlankLine l then
      if cur.isEmpty then groupGo rest [] else cur.reverse :: groupGo rest []
    else groupGo rest (l :: cur)

/-- Split a stream of lines into sentence blocks at blank lines. -/
def groupSentences (ls : List (List Char)) : List (List (List Char)) :=
  groupGo ls []

/-- Modelled from the spec: decode a whole CoNLL-U text into trees,
quarantining (skipping) sentences that fail to decode. -/
def parseTreebank (s : String) : List Tree :=
  (groupSentences (splitOnChar '\n' s.data)).filterMap buildSentence

/-! ## Transparent gzip decompression

Modelled from the spec: files compressed with gzip (magic bytes
`1F 8B`) are accepted transparently.  The DEFLATE body encoding lives
in an external library outside the repository; it is abstracted here as
an invertible stream transform, concretely the stored-block framing of
DEFLATE: length-prefixed chunks terminated by a zero-length marker. -/

/-- First gzip magic byte, as a character of the modelled byte stream. -/
def gzipMagic1 : Char := Char.ofNat 0x1F

/-- Second gzip magic byte. -/
def gzipMagic2 : Char := Char.ofNat 0x8B

/-- The chunk size of the stored-block framing. -/
def chunkSize : Nat := 255

/-- Encode a stream as length-prefixed chunks of at most `chunkSize`
characters, terminated by a zero-length chunk marker.  The fuel bounds
the recursion and is always at least the stream length. -/
def encodeChunks : Nat → List Char → List Char
  | _, [] => [Char.ofNat 0]
  | 0, _ => [Char.ofNat 0]
  | fuel + 1, l =>
    Char.ofNat (min l.length chunkSize) :: (l.take chunkSize ++ encodeChunks fuel (l.drop chunkSize))

/-- Decode the length-prefixed chunk framing. -/
def decodeChunks : Nat → List Char → List Char
  | _, [] => []
  | 0, _ => []
  | fuel + 1, c :: rest =>
    if c.toNat = 0 then [] else rest.take c.toNat ++ decodeChunks fuel (rest.drop c.toNat)

/-- Modelled from the spec: the byte stream of a gzip-compressed file
holding `content`. -/
def gzipFileOf (content : List Char) : List Char :=
  gzipMagic1 :: gzipMagic2 :: encodeChunks content.length content

/-- Modelled from the spec: the byte source detects gzip compression
from the magic bytes and decompresses transparently; any other stream
is passed through unchanged. -/
def readFileData (data : List Char) : List Char :=
  match data with
  | c1 :: c2 :: rest =>
    if c1 = gzipMagic1 && c2 = gzipMagic2 then decodeChunks rest.length rest else data
  | _ => data

/-- Read a file's byte stream (plain or gzip) into trees. -/
def readTrees (data : List Char) : List Tree :=
  parseTreebank (String.mk (readFileData data))

/-! ## Query language: tokens and abstract syntax

Modelled from the spec: §4.2 "Query language".  The native query
lexer and grammar are not in the repository sources. -/

/-- Lexical tokens of the query language. -/
inductive QTok where
  | ident (s : String)
  | strLit (s : String)
  | lbrace | rbrace | lbrack | rbrack
  | semi | amp | dot | bang | minus
  | eqTok | neqTok | tildeTok | ntildeTok
  | ltTok | gtTok | ltlt | gtgt
deriving Repr, DecidableEq

/-- A character that may start an identifier. -/
def isIdentStart (c : Char) : Bool := c.isAlpha || c = '_'

/-- A character that may continue an identifier. -/
def isIdentChar (c : Char) : Bool := c.isAlphanum || c = '_'

/-- Modelled from the spec: the query lexer.  Whitespace is
insignificant; `//` and `#` start line comments.  The fuel always
exceeds the input length, so exhaustion is unreachable. -/
def lexGo : Nat → List Char → Except String (List QTok)
  | 0, _ => .error "query too long"
  | _, [] => .ok []
  | fuel + 1, c :: rest =>
    if c.isWhitespace then lexGo fuel rest
    else if c = '#' then lexGo fuel (rest.dropWhile (· ≠ '\n'))
    else if c = '/' then
      match rest with
      | '/' :: rest2 => lexGo fuel (rest2.dropWhile (· ≠ '\n'))
      | _ => .error "unexpected character /"
    else if isIdentStart c then
      (lexGo fuel (rest.dropWhile isIdentChar)).map
        (QTok.ident (String.mk (c :: rest.takeWhile isIdentChar)) :: ·)
    else if c = '"' then
      match rest.dropWhile (· ≠ '"') with
      | '"' :: rest2 =>
        (lexGo fuel rest2).map (QTok.strLit (String.mk (rest.takeWhile (· ≠ '"'))) :: ·)
      | _ => .error "unterminated string literal"
    else if c = '{' then (lexGo fuel rest).map (QTok.lbrace :: ·)
    else if c = '}' then (lexGo fuel rest).map (QTok.rbrace :: ·)
    else if c = '[' then (lexGo fuel rest).map (QTok.lbrack :: ·)
    else if c = ']' then (lexGo fuel rest).map (QTok.rbrack :: ·)
    else if c = ';' then (lexGo fuel rest).map (QTok.semi :: ·)
    else if c = '&' then (lexGo fuel rest).map (QTok.amp :: ·)
    else if c = '.' then (lexGo fuel rest).map (QTok.dot :: ·)
    else if c = '=' then (lexGo fuel rest).map (QTok.eqTok :: ·)
    else if c = '~' then (lexGo fuel rest).map (QTok.tildeTok :: ·)
    else if c = '-' then (lexGo fuel rest).map (QTok.minus :: ·)
    else if c = '!' then
      match rest with
      | '=' :: rest2 => (lexGo fuel rest2).map (QTok.neqTok :: ·)
      | '~' :: rest2 => (lexGo fuel rest2).map (QTok.ntildeTok :: ·)
      | _ => (lexGo fuel rest).map (QTok.bang :: ·)
    else if c = '<' then
      match rest with
      | '<' :: rest2 => (lexGo fuel rest2).map (QTok.ltlt :: ·)
      | _ => (lexGo fuel rest).map (QTok.ltTok :: ·)
    else if c = '>' then
      match rest with
      | '>' :: rest2 => (lexGo fuel rest2).map (QTok.gtgt :: ·)
      | _ => (lexGo fuel rest).map (QTok.gtTok :: ·)
    else .error ("unexpected character " ++ String.mk [c])

/-- Lex a query string. -/
def lexQuery (s : String) : Except String (List QTok) :=
  lexGo (s.data.length + 1) s.data

/-- The comparison operator of an atomic constraint. -/
inductive CmpOp where
  | ceq | cne | cre | cnre
deriving Repr, DecidableEq

/-- An atomic constraint as parsed: the keys are still raw text;
field-name resolution is a compile step. -/
structure RawAtom where
  key1 : String
  key2 : Option String
  op : CmpOp
  lit : String
deriving Repr, DecidableEq

/-- A clause endpoint: a named variable or the anonymous underscore. -/
inductive Endpoint where
  | evar (n : String)
  | anon
deriving Repr, DecidableEq

/-- Precedence-clause operators: strictly before, immediately before,
and the converses. -/
inductive PrecOp where
  | before | immBefore | after | immAfter
deriving Repr, DecidableEq

/-- A clause of a query block. -/
inductive Clause where
  | node (ep : Endpoint) (atoms : List RawAtom)
  | edge (neg : Bool) (src : Endpoint) (label : Option String) (dst : Endpoint)
  | prec (op : PrecOp) (a b : Endpoint)
deriving Repr, DecidableEq

/-- The three block kinds of the query language. -/
inductive BlockKind where
  | bmatch | bexcept | boptional
deriving Repr, DecidableEq

/-- A parsed query block. -/
structure RawBlock where
  kind : BlockKind
  clauses : List Clause
deriving Repr, DecidableEq

/-- Turn an identifier into an endpoint (`_` is anonymous). -/
def mkEndpoint (n : String) : Endpoint :=
  if n = "_" then .anon else .evar n

/-- Expect and consume a semicolon. -/
def expectSemi : List QTok → Except String (List QTok)
  | .semi :: rest => .ok rest
  | _ => .error "expected semicolon"

/-- Parse one endpoint identifier. -/
def parseEndpointTok : List QTok → Except String (Endpoint × List QTok)
  | .ident n :: rest => .ok (mkEndpoint n, rest)
  | _ => .error "expected identifier"

/-- Parse a comparison operator token. -/
def parseOp : List QTok → Except String (CmpOp × List QTok)
  | .eqTok :: rest => .ok (.ceq, rest)
  | .neqTok :: rest => .ok (.cne, rest)
  | .tildeTok :: rest => .ok (.cre, rest)
  | .ntildeTok :: rest => .ok (.cnre, rest)
  | _ => .error "expected comparison operator"

/-- Parse the `&`-separated constraint conjunction of a node clause,
consuming the closing bracket. -/
def parseAtoms : Nat → List QTok → Except String (List RawAtom × List QTok)
  | _, .rbrack :: rest => .ok ([], rest)
  | 0, _ => .error "query too long"
  | fuel + 1, .ident k :: toks => do
    let (k2, toks) ←
      match toks with
      | .dot :: .ident k2 :: r => .ok (some k2, r)
      | .dot :: _ => .error "expected attribute name after dot"
      | _ => .ok ((none : Option String), toks)
    let (op, toks) ← parseOp toks
    match toks with
    | .strLit lit :: toks =>
      let atom : RawAtom := ⟨k, k2, op, lit⟩
      match toks with
      | .amp :: toks2 => (parseAtoms fuel toks2).map fun r => (atom :: r.1, r.2)
      | .rbrack :: toks2 => .ok ([atom], toks2)
      | _ => .error "expected ampersand or closing bracket"
    | _ => .error "expected string literal"
  | _, _ => .error "expected constraint or closing bracket"

/-- Parse the tail of an edge clause, after the opening minus. -/
def parseEdgeTail (neg : Bool) (src : Endpoint) : List QTok → Except String (Clause × List QTok)
  | .gtTok :: rest => do
    let (dst, r) ← parseEndpointTok rest
    let r ← expectSemi r
    .ok (.edge neg src none dst, r)
  | .lbrack :: .ident l :: .rbrack :: .minus :: .gtTok :: rest => do
    let (dst, r) ← parseEndpointTok rest
    let r ← expectSemi r
    .ok (.edge neg src (some l) dst, r)
  | _ => .error "malformed edge clause"

/-- Parse the tail of a precedence clause. -/
def parsePrecTail (op : PrecOp) (a : Endpoint) (toks : List QTok) :
    Except String (Clause × List QTok) := do
  let (b, r) ← parseEndpointTok toks
  let r ← expectSemi r
  .ok (.prec op a b, r)

/-- Parse one clause. -/
def parseOneClause (fuel : Nat) : List QTok → Except String (Clause × List QTok)
  | .ident n :: .lbrack :: rest =>
    (parseAtoms fuel rest).bind fun r =>
      (expectSemi r.2).map fun r2 => (.node (mkEndpoint n) r.1, r2)
  | .ident n :: .minus :: rest => parseEdgeTail false (mkEndpoint n) rest
  | .ident n :: .bang :: .minus :: rest => parseEdgeTail true (mkEndpoint n) rest
  | .ident n :: .ltlt :: rest => parsePrecTail .before (mkEndpoint n) rest
  | .ident n :: .ltTok :: rest => parsePrecTail .immBefore (mkEndpoint n) rest
  | .ident n :: .gtgt :: rest => parsePrecTail .after (mkEndpoint n) rest
  | .ident n :: .gtTok :: rest => parsePrecTail .immAfter (mkEndpoint n) rest
  | _ => .error "expected clause"

/-- Parse clauses until a closing brace or the end of input (the
closing brace is left for the caller). -/
def parseClauseList : Nat → List QTok → Except String (List Clause × List QTok)
  | _, [] => .ok ([], [])
  | _, .rbrace :: rest => .ok ([], .rbrace :: rest)
  | 0, _ => .error "query too long"
  | fuel + 1, toks => do
    let (c, r) ← parseOneClause fuel toks
    let (cs, r2) ← parseClauseList fuel r
    .ok (c :: cs, r2)

/-- The block keyword of an identifier, if any. -/
def kwOf (s : String) : Option BlockKind :=
  if s = "MATCH" then some .bmatch
  else if s = "EXCEPT" then some .bexcept
  else if s = "OPTIONAL" then some .boptional
  else none

/-- Parse a sequence of keyword blocks. -/
def parseBlocks : Nat → List QTok → Except String (List RawBlock)
  | _, [] => .ok []
  | 0, _ => .error "query too long"
  | fuel + 1, .ident kw :: .lbrace :: rest =>
    match kwOf kw with
    | some kind => do
      let (cs, r) ← parseClauseList fuel rest
      match r with
      | .rbrace :: r2 => (parseBlocks fuel r2).map (⟨kind, cs⟩ :: ·)
      | _ => .error "expected closing brace"
    | none => .error "expected MATCH, EXCEPT, or OPTIONAL"
  | _, _ => .error "expected a query block"

/-- Modelled from the spec: a query is block-structured, or a bare
sequence of clauses treated as one MATCH block; an empty query is a
parse error. -/
def parseQueryToks (toks : List QTok) : Except String (List RawBlock) :=
  match toks with
  | [] => .error "empty query"
  | .ident kw :: .lbrace :: _ =>
    if (kwOf kw).isSome then parseBlocks (toks.length + 1) toks
    else do
      let (cs, r) ← parseClauseList (toks.length + 1) toks
      match r, cs with
      | [], _ :: _ => .ok [⟨.bmatch, cs⟩]
      | _, _ => .error "malformed query"
  | _ => do
    let (cs, r) ← parseClauseList (toks.length + 1) toks
    match r, cs with
    | [], _ :: _ => .ok [⟨.bmatch, cs⟩]
    | _, _ => .error "malformed query"

/-- Modelled from the spec: the syntactic phase of query compilation. -/
def parseQuery (s : String) : Except String (List RawBlock) := do
  let toks ← lexQuery s
  parseQueryToks toks

/-! ## Query compiler

Modelled from the spec: §4.3 "Compiler".  The AST is lowered into one
plan per block: resolved constraints plus a greedily chosen variable
order. -/

/-- The recognised node-attribute fields. -/
inductive FieldKey where
  | fform | flemma | fupos | fxpos | fdeprel
deriving Repr, DecidableEq

/-- A resolved attribute selector: a plain field, or a dynamic
`feats.Name` / `misc.Name` access modelled as a (kind, name) pair. -/
inductive AttrKey where
  | field (f : FieldKey)
  | featsKey (n : String)
  | miscKey (n : String)
deriving Repr, DecidableEq

/-- A compiled node constraint on variable `v`. -/
structure NodeC where
  v : Nat
  key : AttrKey
  op : CmpOp
  lit : String
deriving Repr, DecidableEq

/-- A compiled edge constraint: `src` is the parent, `dst` the child. -/
structure EdgeC where
  src : Nat
  label : Option String
  dst : Nat
deriving Repr, DecidableEq

/-- A compiled precedence constraint. -/
structure PrecC where
  op : PrecOp
  a : Nat
  b : Nat
deriving Repr, DecidableEq

/-- A compiled block: its constraints over global variable indices and
the planned order in which the block's own variables are bound. -/
structure CBlock where
  nodeCs : List NodeC
  edgeCs : List EdgeC
  precCs : List PrecC
  order : List Nat
deriving Repr, DecidableEq, Inhabited

/-- A compiled pattern.  `table` maps each global variable index to its
name (`none` for the anonymous variables, which never appear in
output). -/
structure Pattern where
  table : List (Option String)
  matchB : CBlock
  excepts : List CBlock
  optionals : List CBlock
deriving Repr, DecidableEq, Inhabited

/-- Look up a variable name. -/
def lookupNat (k : String) : List (String × Nat) → Option Nat
  | [] => none
  | (k', v') :: rest => if k = k' then some v' else lookupNat k rest

/-- Compiler state: the global variable table, the name environment of
the block being compiled, and the block's own variables in order of
first appearance. -/
structure CompSt where
  table : List (Option String)
  env : List (String × Nat)
  own : List Nat
deriving Repr, DecidableEq

/-- Resolve a clause endpoint: an anonymous endpoint is a fresh local
variable per clause; a named endpoint is shared within its scope and
created on first appearance. -/
def resolveEp (st : CompSt) : Endpoint → Nat × CompSt
  | .anon =>
    (st.table.length,
      { st with table := st.table ++ [none], own := st.own ++ [st.table.length] })
  | .evar n =>
    match lookupNat n st.env with
    | some i => (i, st)
    | none =>
      (st.table.length,
        { table := st.table ++ [some n]
          env := st.env ++ [(n, st.table.length)]
          own := st.own ++ [st.table.length] })

/-- Modelled from the spec: the recognised fields are `form`, `lemma`,
`upos` (alias `pos`), `xpos` and `deprel`, plus dynamic `feats.Name`
and `misc.Name`; anything else is a semantic error. -/
def resolveKey (k1 : String) (k2 : Option String) : Except String AttrKey :=
  match k2 with
  | some n =>
    if k1 = "feats" then .ok (.featsKey n)
    else if k1 = "misc" then .ok (.miscKey n)
    else .error ("unknown field: " ++ k1)
  | none =>
    if k1 = "form" then .ok (.field .fform)
    else if k1 = "lemma" then .ok (.field .flemma)
    else if k1 = "upos" || k1 = "pos" then .ok (.field .fupos)
    else if k1 = "xpos" then .ok (.field .fxpos)
    else if k1 = "deprel" then .ok (.field .fdeprel)
    else .error ("unknown field: " ++ k1)

/-- Compile the atoms of a node clause against variable `v`. -/
def compileAtoms (v : Nat) : List RawAtom → Except String (List NodeC)
  | [] => .ok []
  | a :: rest => do
    let key ← resolveKey a.key1 a.key2
    let more ← compileAtoms v rest
    .ok (⟨v, key, a.op, a.lit⟩ :: more)

/-- Accumulated constraints of a block under compilation.  `negs`
records negated edge clauses for the EXCEPT rewrite. -/
structure BlockAcc where
  ncs : List NodeC
  ecs : List EdgeC
  pcs : List PrecC
  negs : List (Nat × Option String × Endpoint)
deriving Repr, DecidableEq

/-- Compile the clauses of one block, resolving endpoints as they
appear. -/
def compileClauses : List Clause → CompSt → BlockAcc → Except String (BlockAcc × CompSt)
  | [], st, acc => .ok (acc, st)
  | .node ep atoms :: rest, st, acc =>
    let (v, st') := resolveEp st ep
    (compileAtoms v atoms).bind fun ncs' =>
      compileClauses rest st' { acc with ncs := acc.ncs ++ ncs' }
  | .edge true src label dst :: rest, st, acc =>
    let (s, st') := resolveEp st src
    compileClauses rest st' { acc with negs := acc.negs ++ [(s, label, dst)] }
  | .edge false src label dst :: rest, st, acc =>
    let (s, st') := resolveEp st src
    let (d, st'') := resolveEp st' dst
    compileClauses rest st'' { acc with ecs := acc.ecs ++ [⟨s, label, d⟩] }
  | .prec op a b :: rest, st, acc =>
    let (x, st') := resolveEp st a
    let (y, st'') := resolveEp st' b
    compileClauses rest st'' { acc with pcs := acc.pcs ++ [⟨op, x, y⟩] }

/-- Does variable `v` carry any node constraint? -/
def hasNodeC (ncs : List NodeC) (v : Nat) : Bool :=
  ncs.any (·.v = v)

/-- Is `v` reachable by an edge constraint from an already-bound
variable? -/
def edgeReachable (ecs : List EdgeC) (bound : List Nat) (v : Nat) : Bool :=
  ecs.any fun e => (e.src = v && bound.contains e.dst) || (e.dst = v && bound.contains e.src)

/-- The greedy selection key of a candidate variable: constrained
variables first, then variables reachable from a bound one. -/
def varKey (ncs : List NodeC) (ecs : List EdgeC) (bound : List Nat) (v : Nat) : Nat × Nat :=
  ((if hasNodeC ncs v then 0 else 1), (if edgeReachable ecs bound v then 0 else 1))

/-- Lexicographic strict order on selection keys. -/
def keyLt (x y : Nat × Nat) : Bool :=
  x.1 < y.1 || (x.1 = y.1 && x.2 < y.2)

/-- Pick the best remaining variable: the first one with a minimal
key. -/
def pickBest (ncs : List NodeC) (ecs : List EdgeC) (bound : List Nat) :
    List Nat → Option Nat
  | [] => none
  | v :: rest =>
    match pickBest ncs ecs bound rest with
    | none => some v
    | some w =>
      if keyLt (varKey ncs ecs bound w) (varKey ncs ecs bound v) then some w else some v

/-- Modelled from the spec: the greedy variable-order heuristic. -/
def planGreedy (ncs : List NodeC) (ecs : List EdgeC) :
    Nat → List Nat → List Nat → List Nat
  | 0, _, _ => []
  | fuel + 1, bound, rem =>
    match pickBest ncs ecs bound rem with
    | none => []
    | some v => v :: planGreedy ncs ecs fuel (v :: bound) (rem.erase v)

/-- The node constraints declared for a named variable inside a block's
clause list (used by the negated-edge rewrite). -/
def atomsOfName (n : String) : List Clause → List RawAtom
  | [] => []
  | .node (.evar m) atoms :: rest =>
    (if m = n then atoms else []) ++ atomsOfName n rest
  | _ :: rest => atomsOfName n rest

/-- Compile one block: resolve its clauses and plan its variable
order.  `outerBound` lists the variables already bound when the block
executes. -/
def compileBlockC (cls : List Clause) (outerBound : List Nat) (st0 : CompSt) :
    Except String (CBlock × List (Nat × Option String × Endpoint) × CompSt) := do
  let stIn := { st0 with own := [] }
  let (acc, st1) ← compileClauses cls stIn ⟨[], [], [], []⟩
  let order := planGreedy acc.ncs acc.ecs st1.own.length outerBound st1.own
  .ok (⟨acc.ncs, acc.ecs, acc.pcs, order⟩, acc.negs, st1)

/-- Modelled from the spec: a negated edge clause `A !-[l]-> B` is
rewritten into an EXCEPT block holding the positive edge from `A` to a
fresh anonymous variable that carries `B`'s node constraints. -/
def buildNegExcepts (cls : List Clause) :
    List (Nat × Option String × Endpoint) → CompSt → Except String (List CBlock × CompSt)
  | [], st => .ok ([], st)
  | (s, label, dstEp) :: rest, st => do
    let x := st.table.length
    let st' := { st with table := st.table ++ [none] }
    let atoms := match dstEp with | .evar n => atomsOfName n cls | .anon => []
    let ncs ← compileAtoms x atoms
    let blk : CBlock := ⟨ncs, [⟨s, label, x⟩], [], [x]⟩
    let (more, st'') ← buildNegExcepts cls rest st'
    .ok (blk :: more, st'')

/-- Compile the EXCEPT and OPTIONAL blocks following the MATCH block.
Each starts from the MATCH name environment; its own names are local. -/
def compileRest (matchOwn : List Nat) (menv : List (String × Nat)) :
    List RawBlock → CompSt → Except String (List CBlock × List CBlock × CompSt)
  | [], st => .ok ([], [], st)
  | ⟨.bmatch, _⟩ :: _, _ => .error "duplicate MATCH block"
  | ⟨kind, cls⟩ :: rest, st => do
    let (blk, negs, st') ← compileBlockC cls matchOwn { st with env := menv }
    if negs.isEmpty then
      let (es, os, st'') ← compileRest matchOwn menv rest st'
      match kind with
      | .bexcept => .ok (blk :: es, os, st'')
      | .boptional => .ok (es, blk :: os, st'')
      | .bmatch => .error "duplicate MATCH block"
    else .error "negated edge clause is only supported in the MATCH block"

/-- Modelled from the spec: lower the parsed blocks into a compiled
pattern: a mandatory MATCH block first, then any number of EXCEPT and
OPTIONAL blocks sharing the MATCH variable scope. -/
def compileAst : List RawBlock → Except String Pattern
  | ⟨.bmatch, mcs⟩ :: rest => do
    let (mblk, negs, st1) ← compileBlockC mcs [] ⟨[], [], []⟩
    let (negExcepts, st2) ← buildNegExcepts mcs negs st1
    let (es, os, stF) ← compileRest st1.own st1.env rest st2
    .ok { table := stF.table, matchB := mblk, excepts := negExcepts ++ es, optionals := os }
  | _ => .error "query must begin with a MATCH block"

/-- Modelled from the spec: compile a query string.  Syntactic problems
surface as a query parse error; resolution problems as a query semantic
error.  No partial pattern is ever returned. -/
def compileQuery (q : String) : Except String Pattern :=
  match parseQuery q with
  | .error e => .error ("Query parse error: " ++ e)
  | .ok ast =>
    match compileAst ast with
    | .error e => .error ("Query semantic error: " ++ e)
    | .ok p => .ok p

/-! ## Matcher

Modelled from the spec: §4.4 "Matcher": a backtracking join over the
plan's variable order, EXCEPT rejection on complete bindings, and the
Cartesian product over OPTIONAL block extensions. -/

/-- A partial binding: for each global variable index, the word index
it is bound to, if any. -/
abbrev Binding := List (Option Nat)

/-- The value bound to a variable. -/
def bget (b : Binding) (v : Nat) : Option Nat :=
  b.getD v none

/-- Bind a variable to a word index. -/
def bset (b : Binding) (v : Nat) (w : Nat) : Binding :=
  b.set v (some w)

/-- The attribute value a selector reads from a word (dynamic
`feats.X` / `misc.X` resolve against the word's ordered maps). -/
def attrVal (w : Word) : AttrKey → Option String
  | .field .fform => some w.form
  | .field .flemma => some w.lemma'
  | .field .fupos => some w.upos
  | .field .fxpos => w.xpos
  | .field .fdeprel => some w.deprel
  | .featsKey n => lookupKV n w.feats
  | .miscKey n => lookupKV n w.misc

/-- Does the first list occur as a prefix of the second? -/
def startsList : List Char → List Char → Bool
  | [], _ => true
  | _ :: _, [] => false
  | p :: ps, c :: cs => p = c && startsList ps cs

/-- Does the first list occur as a contiguous sublist of the second? -/
def occursIn : List Char → List Char → Bool
  | pat, [] => pat.isEmpty
  | pat, c :: rest => startsList pat (c :: rest) || occursIn pat rest

/-- Regex matching.  The spec leaves the regex dialect an open
question; it is modelled here as substring containment, which no
claim exercises. -/
def reMatch (pat s : String) : Bool :=
  occursIn pat.data s.data

/-- Does a word satisfy one atomic constraint? -/
def atomSat (w : Word) (key : AttrKey) (op : CmpOp) (lit : String) : Bool :=
  let v := attrVal w key
  match op with
  | .ceq => v == some lit
  | .cne => !(v == some lit)
  | .cre => (match v with | some s => reMatch lit s | none => false)
  | .cnre => !(match v with | some s => reMatch lit s | none => false)

/-- A node constraint holds once its variable is bound. -/
def nodeSat (t : Tree) (nc : NodeC) (b : Binding) : Bool :=
  match bget b nc.v with
  | none => true
  | some wi => atomSat (t.wordAt wi) nc.key nc.op nc.lit

/-- An edge constraint holds once both endpoints are bound: the child's
head is the parent, and the label (when given) is the child's deprel. -/
def edgeSat (t : Tree) (ec : EdgeC) (b : Binding) : Bool :=
  match bget b ec.src, bget b ec.dst with
  | some s, some d =>
    (t.wordAt d).head == some s &&
      (match ec.label with | none => true | some l => (t.wordAt d).deprel == l)
  | _, _ => true

/-- A precedence constraint holds once both endpoints are bound; it
reads only the bound word indices, never the tree. -/
def precSat (_t : Tree) (pc : PrecC) (b : Binding) : Bool :=
  match bget b pc.a, bget b pc.b with
  | some x, some y =>
    match pc.op with
    | .before => decide (x < y)
    | .immBefore => decide (y = x + 1)
    | .after => decide (y < x)
    | .immAfter => decide (x = y + 1)
  | _, _ => true

/-- Every constraint of the block whose variables are bound holds. -/
def checkAll (t : Tree) (cb : CBlock) (b : Binding) : Bool :=
  cb.nodeCs.all (nodeSat t · b) && cb.edgeCs.all (edgeSat t · b) &&
    cb.precCs.all (precSat t · b)

/-- Modelled from the spec: the candidate seed of a plan step: if an
edge constraint connects the step's variable to a bound variable, start
from that variable's child (or parent) set; otherwise iterate over all
word indices. -/
def seedCandidates (t : Tree) (cb : CBlock) (b : Binding) (v : Nat) : List Nat :=
  match cb.edgeCs.find? fun e => e.dst = v && (bget b e.src).isSome with
  | some e => t.childrenOf ((bget b e.src).getD 0)
  | none =>
    match cb.edgeCs.find? fun e => e.src = v && (bget b e.dst).isSome with
    | some e => ((t.wordAt ((bget b e.dst).getD 0)).head).toList
    | none => List.range t.words.length

/-- The filtered candidate list of a plan step: seeds that satisfy
every node, edge, and precedence constraint checkable after binding. -/
def candList (t : Tree) (cb : CBlock) (b : Binding) (v : Nat) : List Nat :=
  (seedCandidates t cb b v).filter fun w => checkAll t cb (bset b v w)

/-- Modelled from the spec: the backtracking join: bind the plan's
variables in order, narrowing by the checkable constraints; at the end
the remaining (possibly zero-variable) constraints are verified. -/
def stepMatch (t : Tree) (cb : CBlock) : List Nat → Binding → List Binding
  | [], b => if checkAll t cb b then [b] else []
  | v :: rest, b => (candList t cb b v).flatMap fun w => stepMatch t cb rest (bset b v w)

/-- The all-unbound binding of a pattern. -/
def emptyBinding (p : Pattern) : Binding :=
  List.replicate p.table.length none

/-- All complete MATCH bindings of a pattern over a tree. -/
def matchBindings (t : Tree) (p : Pattern) : List Binding :=
  stepMatch t p.matchB p.matchB.order (emptyBinding p)

/-- The successful binding extensions of an EXCEPT or OPTIONAL block
over a complete MATCH binding. -/
def blockExts (t : Tree) (cb : CBlock) (b : Binding) : List Binding :=
  stepMatch t cb cb.order b

/-- Modelled from the spec: a complete MATCH binding is rejected when
any EXCEPT block has at least one successful extension. -/
def survives (t : Tree) (p : Pattern) (b : Binding) : Bool :=
  p.excepts.all fun e => (blockExts t e b).isEmpty

/-- The MATCH bindings that EXCEPT evaluation retains. -/
def survivors (t : Tree) (p : Pattern) : List Binding :=
  (matchBindings t p).filter (survives t p)

/-- Modelled from the spec: an OPTIONAL block with zero successful
extensions contributes the binding as-is; otherwise it contributes its
extensions. -/
def optChoices (t : Tree) (cb : CBlock) (b : Binding) : List Binding :=
  let exts := blockExts t cb b
  if exts.isEmpty then [b] else exts

/-- Overlay two extensions of the same base binding (their bound
variable sets are disjoint outside the shared base). -/
def mergeB (b1 b2 : Binding) : Binding :=
  List.zipWith (fun x y => match x with | some v => some v | none => y) b1 b2

/-- Modelled from the spec: each OPTIONAL block runs as an independent
inner join over the MATCH binding, and extensions across blocks take
the Cartesian product. -/
def optProduct (t : Tree) : List CBlock → Binding → List Binding
  | [], b => [b]
  | o :: rest, b => (optChoices t o b).flatMap fun b1 => (optProduct t rest b).map (mergeB b1)

/-- Project an internal binding to the output mapping: named variables
only, in first-appearance order, omitting unbound (OPTIONAL)
variables. -/
def outputBinding (p : Pattern) (b : Binding) : List (String × Nat) :=
  (p.table.zip b).filterMap fun nv =>
    match nv with
    | (some n, some w) => some (n, w)
    | _ => none

/-- Modelled from the spec: all emitted bindings of a pattern over one
tree. -/
def searchTree (t : Tree) (p : Pattern) : List (List (String × Nat)) :=
  (survivors t p).flatMap fun b => (optProduct t p.optionals b).map (outputBinding p)

/-- Modelled from the spec: the ordered treebank stream of
(tree, binding) results; the tree is referenced by its index in the
stream. -/
def searchTreebank (ts : List Tree) (p : Pattern) : List (Nat × List (String × Nat)) :=
  ts.enum.flatMap fun it => (searchTree it.2 p).map fun ob => (it.1, ob)

/-- Modelled from the spec: the embedding boundary accepts a query
string or a compiled pattern. -/
inductive QueryArg where
  | text (q : String)
  | compiled (p : Pattern)

/-- Modelled from the spec: a polymorphic query value is always reduced
to the compiled form before the matcher sees it. -/
def coerceQuery : QueryArg → Except String Pattern
  | .text q => compileQuery q
  | .compiled p => .ok p

/-- Modelled from the spec: `treebank.search`, accepting either query
form; a failed string compilation surfaces the error before any match
is produced. -/
def treebankSearch (ts : List Tree) (q : QueryArg) :
    Except String (List (Nat × List (String × Nat))) :=
  (coerceQuery q).map (searchTreebank ts)

/-! ## Concrete fixtures

The literal inputs of the repository's test suite, used to instantiate
the universally quantified theorems below. -/

/-- The six-token sentence `He helped us to win.` of the test suite. -/
def sampleConllu : String :=
  "# text = He helped us to win.\n1\tHe\the\tPRON\tPRP\t_\t2\tnsubj\t_\t_\n2\thelped\thelp\tVERB\tVBD\t_\t0\troot\t_\t_\n3\tus\twe\tPRON\tPRP\t_\t2\tobj\t_\t_\n4\tto\tto\tPART\tTO\t_\t5\tmark\t_\t_\n5\twin\twin\tVERB\tVB\t_\t2\txcomp\t_\t_\n6\t.\t.\tPUNCT\t.\t_\t2\tpunct\t_\t_\n\n"

/-- The verb-finder query of the test suite. -/
def verbQuery : String :=
  "MATCH \x7b V [upos=\x22VERB\x22]; \x7d"

/-- The parsed sample treebank (one tree). -/
def sampleTrees : List Tree :=
  parseTreebank sampleConllu

/-- The sample sentence block, as lines. -/
def sampleLines : List (List Char) :=
  (groupSentences (splitOnChar '\n' sampleConllu.data)).headD []

/-- The sample tree. -/
def sampleTree : Tree :=
  (buildSentence sampleLines).getD default

/-- The raw tokens of the sample sentence. -/
def sampleToks : List RawTok :=
  ((collectLines sampleLines).getD default).2

/-- The metadata of the sample sentence. -/
def sampleMeta : List (String × String) :=
  ((collectLines sampleLines).getD default).1

/-- The compiled verb-finder pattern. -/
def verbPat : Pattern :=
  (compileQuery verbQuery).toOption.getD default

/-- The two-verb sentence `John saw him running quickly.` of the
EXCEPT/OPTIONAL tests. -/
def multiVerbConllu : String :=
  "# text = John saw him running quickly.\n1\tJohn\tJohn\tPROPN\tNNP\t_\t2\tnsubj\t_\t_\n2\tsaw\tsee\tVERB\tVBD\t_\t0\troot\t_\t_\n3\thim\the\tPRON\tPRP\t_\t2\tobj\t_\t_\n4\trunning\trun\tVERB\tVBG\t_\t2\txcomp\t_\t_\n5\tquickly\tquickly\tADV\tRB\t_\t4\tadvmod\t_\t_\n6\t.\t.\tPUNCT\t.\t_\t2\tpunct\t_\t_\n\n"

/-- The two-verb tree. -/
def mvTree : Tree :=
  (parseTreebank multiVerbConllu).headD default

/-- Verbs without an ADV `advmod` child: the basic EXCEPT query. -/
def exceptQuery : String :=
  "MATCH \x7b V [upos=\x22VERB\x22]; \x7d EXCEPT \x7b M [upos=\x22ADV\x22]; V -[advmod]-> M; \x7d"

/-- The compiled basic EXCEPT pattern. -/
def exceptPat : Pattern :=
  (compileQuery exceptQuery).toOption.getD default

/-- The OPTIONAL query whose block finds no extension over `running`. -/
def optQuery : String :=
  "MATCH \x7b V [lemma=\x22run\x22]; \x7d OPTIONAL \x7b S [upos=\x22PROPN\x22]; V -[nsubj]-> S; \x7d"

/-- The compiled OPTIONAL pattern. -/
def optPat : Pattern :=
  (compileQuery optQuery).toOption.getD default

/-- The sentence `He helped us quickly.` of the Cartesian OPTIONAL
test: two PRON children and one ADV child of `helped`. -/
def crossConllu : String :=
  "# text = He helped us quickly.\n1\tHe\the\tPRON\tPRP\t_\t2\tnsubj\t_\t_\n2\thelped\thelp\tVERB\tVBD\t_\t0\troot\t_\t_\n3\tus\twe\tPRON\tPRP\t_\t2\tobj\t_\t_\n4\tquickly\tquickly\tADV\tRB\t_\t2\tadvmod\t_\t_\n5\t.\t.\tPUNCT\t.\t_\t2\tpunct\t_\t_\n\n"

/-- The Cartesian OPTIONAL tree. -/
def cpTree : Tree :=
  (parseTreebank crossConllu).headD default

/-- The two-OPTIONAL-block query of the Cartesian product test. -/
def crossQuery : String :=
  "MATCH \x7b V [lemma=\x22help\x22]; \x7d OPTIONAL \x7b P [upos=\x22PRON\x22]; V -> P; \x7d OPTIONAL \x7b A [upos=\x22ADV\x22]; V -> A; \x7d"

/-- The compiled Cartesian OPTIONAL pattern. -/
def crossPat : Pattern :=
  (compileQuery crossQuery).toOption.getD default

/-- The word `He` of the sample tree. -/
def wHe : Word :=
  (sampleTree.word 0).toOption.getD default

/-- The root word `helped` of the sample tree. -/
def wHelped : Word :=
  (sampleTree.word 1).toOption.getD default

/-! ## Helper lemmas -/

/-- The dense word array has one word per raw token. -/
theorem buildWords_length (s : Nat) (toks : List RawTok) :
    (buildWords s toks).length = toks.length := by
  induction toks generalizing s with
  | nil => rfl
  | cons tk rest ih => simp [buildWords, ih]

/-- The word at position `i` of the dense array built from offset `s`
is the `i`-th raw token realised at index `s + i`. -/
theorem buildWords_get? (s : Nat) (toks : List RawTok) (i : Nat) :
    (buildWords s toks)[i]? = toks[i]?.map fun tk => mkWord (s + i) tk := by
  induction toks generalizing s i with
  | nil => simp [buildWords]
  | cons tk rest ih =>
    cases i with
    | zero => simp [buildWords]
    | succ j =>
      simp only [buildWords, List.getElem?_cons_succ, ih (s + 1) j]
      have : s + 1 + j = s + (j + 1) := by omega
      rw [this]

/-- Consecutive raw ids: the `i`-th token of a run starting at `k` has
id `k + i`. -/
theorem idsFrom_get? (k : Nat) (toks : List RawTok) (h : idsFrom k toks = true)
    (i : Nat) (tk : RawTok) (hg : toks[i]? = some tk) : tk.rid = k + i := by
  induction toks generalizing k i with
  | nil => simp at hg
  | cons t0 rest ih =>
    rw [idsFrom, Bool.and_eq_true, decide_eq_true_iff] at h
    cases i with
    | zero =>
      simp only [List.getElem?_cons_zero, Option.some_inj] at hg
      subst hg
      omega
    | succ j =>
      simp only [List.getElem?_cons_succ] at hg
      have := ih (k + 1) h.2 j hg
      omega

/-- The head-validity scan: a listed word's head is in range and never
the word's own index. -/
theorem headsOkFrom_get? (n s : Nat) (ws : List Word)
    (h : headsOkFrom n s ws = true) (i : Nat) (w : Word)
    (hg : ws[i]? = some w) (hv : Nat) (hh : w.head = some hv) :
    hv < n ∧ hv ≠ s + i := by
  induction ws generalizing s i with
  | nil => simp at hg
  | cons w0 rest ih =>
    rw [headsOkFrom, Bool.and_eq_true] at h
    cases i with
    | zero =>
      simp only [List.getElem?_cons_zero, Option.some_inj] at hg
      subst hg
      have h1 := h.1
      rw [hh, Bool.and_eq_true, decide_eq_true_iff, decide_eq_true_iff] at h1
      omega
    | succ j =>
      simp only [List.getElem?_cons_succ] at hg
      have := ih (s + 1) h.2 j hg
      omega

/-- Overlaying a binding with itself changes nothing. -/
theorem mergeB_self (b : Binding) : mergeB b b = b := by
  induction b with
  | nil => rfl
  | cons x rest ih =>
    have hstep :
        mergeB (x :: rest) (x :: rest) =
          (match x with | some v => some v | none => x) :: mergeB rest rest := rfl
    rw [hstep, ih]
    cases x <;> rfl

/-- Summing a constant over a list multiplies it by the length. -/
theorem sum_map_const_nat {α : Type} (l : List α) (k : Nat) :
    (l.map fun _ => k).sum = l.length * k := by
  induction l with
  | nil => simp
  | cons x rest ih => simp [ih, Nat.succ_mul, Nat.add_comm]

/-- Characters built from small codes report their code back. -/
theorem char_toNat_ofNat_le (k : Nat) (hk : k ≤ 255) : (Char.ofNat k).toNat = k := by
  have hv : Nat.isValidChar k := Or.inl (by omega)
  simp [Char.ofNat, hv, Char.ofNatAux, Char.toNat, UInt32.toNat, BitVec.toNat_ofNat]

/-- Decoding inverts chunk encoding, for any sufficient fuels. -/
theorem decodeChunks_encodeChunks (n : Nat) :
    ∀ l : List Char, l.length ≤ n →
      ∀ m, (encodeChunks n l).length ≤ m → decodeChunks m (encodeChunks n l) = l := by
  induction n with
  | zero =>
    intro l hl m hm
    have hnil : l = [] := List.eq_nil_of_length_eq_zero (Nat.le_zero.mp hl)
    subst hnil
    cases m with
    | zero => simp [encodeChunks] at hm
    | succ m' => simp [encodeChunks, decodeChunks, char_toNat_ofNat_le 0 (by omega)]
  | succ n ih =>
    intro l hl m hm
    cases l with
    | nil =>
      cases m with
      | zero => simp [encodeChunks] at hm
      | succ m' => simp [encodeChunks, decodeChunks, char_toNat_ofNat_le 0 (by omega)]
    | cons c cs =>
      have hlen1 : 0 < (c :: cs).length := by simp
      have hkk : min ((c :: cs).length) chunkSize ≤ 255 := by
        rw [chunkSize]; omega
      have hkk1 : 0 < min ((c :: cs).length) chunkSize := by
        rw [chunkSize]; omega
      have henc : encodeChunks (n + 1) (c :: cs) =
          Char.ofNat (min ((c :: cs).length) chunkSize) ::
            ((c :: cs).take chunkSize ++ encodeChunks n ((c :: cs).drop chunkSize)) := rfl
      rw [henc] at hm ⊢
      cases m with
      | zero => simp at hm
      | succ m' =>
        have hdec : ∀ (ch : Char) (rest : List Char),
            decodeChunks (m' + 1) (ch :: rest) =
              if ch.toNat = 0 then [] else
                rest.take ch.toNat ++ decodeChunks m' (rest.drop ch.toNat) :=
          fun ch rest => rfl
        rw [hdec]
        rw [char_toNat_ofNat_le _ hkk]
        rw [if_neg (by omega)]
        have htl : ((c :: cs).take chunkSize).length = min ((c :: cs).length) chunkSize := by
          rw [List.length_take, Nat.min_comm]
        have htake :
            (((c :: cs).take chunkSize ++ encodeChunks n ((c :: cs).drop chunkSize)).take
              (min ((c :: cs).length) chunkSize)) = (c :: cs).take chunkSize := by
          rw [← htl, List.take_left]
        have hdrop :
            (((c :: cs).take chunkSize ++ encodeChunks n ((c :: cs).drop chunkSize)).drop
              (min ((c :: cs).length) chunkSize)) =
              encodeChunks n ((c :: cs).drop chunkSize) := by
          rw [← htl, List.drop_left]
        rw [htake, hdrop]
        have hdl : ((c :: cs).drop chunkSize).length ≤ n := by
          rw [List.length_drop, chunkSize]
          simp at hl ⊢
          omega
        have hfuel : (encodeChunks n ((c :: cs).drop chunkSize)).length ≤ m' := by
          simp only [List.length_cons, List.length_append, htl] at hm
          omega
        rw [ih _ hdl m' hfuel, List.take_append_drop]

/-- Reading a gzip stream recovers the compressed content. -/
theorem readFileData_gzip (content : List Char) :
    readFileData (gzipFileOf content) = content := by
  rw [gzipFileOf, readFileData]
  rw [if_pos (by simp)]
  exact decodeChunks_encodeChunks content.length content (Nat.le_refl _) _ (Nat.le_refl _)

/-! ## Claim theorems -/

set_option maxRecDepth 100000 in
/-- Claim C1: on the single-sentence CoNLL-U input
`He helped us to win.` (root `helped` at index 1, xcomp `win` at
index 4), searching with the query string `MATCH { V [upos="VERB"]; }`
emits exactly the two bindings `{V: 1}` and `{V: 4}`, in that order,
and no others. -/
theorem claim1_verb_finder :
    treebankSearch sampleTrees (.text verbQuery) =
      .ok [(0, [("V", 1)]), (0, [("V", 4)])] := by
  rfl

/-- Claim C7: for every treebank, searching with a raw query string
that compiles to pattern `p` produces exactly the same results as
searching with the compiled pattern: the string is reduced to the
compiled form before matching. -/
theorem claim7_string_pattern_equiv (ts : List Tree) (q : String) (p : Pattern)
    (h : compileQuery q = .ok p) :
    treebankSearch ts (.text q) = treebankSearch ts (.compiled p) ∧
    treebankSearch ts (.text q) = .ok (searchTreebank ts p) := by
  constructor <;> simp [treebankSearch, coerceQuery, h, Except.map]

/-- Witness for C7 at the sample treebank and the verb-finder query. -/
theorem claim7_witness :
    treebankSearch sampleTrees (.text verbQuery) =
      treebankSearch sampleTrees (.compiled verbPat) :=
  (claim7_string_pattern_equiv sampleTrees verbQuery verbPat (by rfl)).1

/-- Claim C9: a syntactically invalid query string fails at compile
time with an error message prefixed `Query parse error`, no pattern is
returned, and `treebank.search` on such a string surfaces the same
error before producing any match. -/
theorem claim9_parse_error (ts : List Tree) (q : String) (m : String)
    (h : parseQuery q = .error m) :
    compileQuery q = .error ("Query parse error: " ++ m) ∧
    treebankSearch ts (.text q) = .error ("Query parse error: " ++ m) := by
  constructor <;> simp [compileQuery, h, treebankSearch, coerceQuery, Except.map]

/-- Witness for C9 at the empty query string and at the malformed
query of the test suite. -/
theorem claim9_witness :
    (compileQuery "" = .error ("Query parse error: empty query") ∧
      treebankSearch sampleTrees (.text "") =
        .error ("Query parse error: empty query")) ∧
    compileQuery "INVALID SYNTAX [[[" =
      .error ("Query parse error: expected clause") :=
  ⟨claim9_parse_error sampleTrees "" "empty query" (by rfl),
    (claim9_parse_error sampleTrees "INVALID SYNTAX [[[" "expected clause" (by rfl)).1⟩

/-- Claim C10: `tree.word(i)` and the subscript form raise an
IndexError naming the index whenever `i` is at or beyond the word
count, and return the word at position `i` whenever `i` is in
range. -/
theorem claim10_word_range (t : Tree) (i : Nat) :
    (t.words.length ≤ i →
      t.word i = .error ("word index out of range: " ++ toString i) ∧
      t.getItem i = .error ("word index out of range: " ++ toString i)) ∧
    (∀ h : i < t.words.length,
      t.word i = .ok (t.words.get ⟨i, h⟩) ∧
      t.getItem i = .ok (t.words.get ⟨i, h⟩)) := by
  constructor
  · intro hle
    have hg : t.words.get? i = none := List.get?_eq_none.mpr hle
    constructor <;> simp only [Tree.word, Tree.getItem, hg]
  · intro h
    have hg : t.words.get? i = some (t.words.get ⟨i, h⟩) := List.get?_eq_get h
    constructor <;> simp only [Tree.word, Tree.getItem, hg]

/-- Claim C2: a complete MATCH binding is rejected exactly when some
EXCEPT block has at least one successful extension over it: if any
block extends, the binding is not retained; if no block extends, the
binding is retained.  With several EXCEPT blocks, one matching block
alone suffices for rejection. -/
theorem claim2_except_rejection (t : Tree) (p : Pattern) (b : Binding)
    (hb : b ∈ matchBindings t p) :
    ((∃ e ∈ p.excepts, blockExts t e b ≠ []) → b ∉ survivors t p) ∧
    ((∀ e ∈ p.excepts, blockExts t e b = []) → b ∈ survivors t p) := by
  constructor
  · rintro ⟨e, he, hne⟩ hmem
    rw [survivors, List.mem_filter] at hmem
    have hs := hmem.2
    rw [survives, List.all_eq_true] at hs
    exact hne (List.isEmpty_iff.mp (hs e he))
  · intro hall
    rw [survivors, List.mem_filter]
    refine ⟨hb, ?_⟩
    rw [survives, List.all_eq_true]
    intro e he
    exact List.isEmpty_iff.mpr (hall e he)

set_option maxRecDepth 100000 in
/-- Witness for C2 on the two-verb tree with the basic EXCEPT
pattern: the binding at `saw` is retained, the binding at `running`
(whose `advmod` child matches the EXCEPT block) is rejected. -/
theorem claim2_witness :
    ([some 1, none] : Binding) ∈ survivors mvTree exceptPat ∧
    ([some 3, none] : Binding) ∉ survivors mvTree exceptPat :=
  ⟨(claim2_except_rejection mvTree exceptPat [some 1, none] (by decide)).2 (by decide),
    (claim2_except_rejection mvTree exceptPat [some 3, none] (by decide)).1 (by decide)⟩

/-- Claim C3: over a surviving MATCH binding, one output is emitted
per element of the Cartesian product of the OPTIONAL extension sets,
a block with zero extensions contributing the factor one; when every
OPTIONAL block has zero extensions the binding is emitted once,
unchanged (so the blocks' variables stay unbound). -/
theorem claim3_optional_product (t : Tree) (opts : List CBlock) (b : Binding) :
    (optProduct t opts b).length =
      (opts.map fun o =>
        if (blockExts t o b).isEmpty then 1 else (blockExts t o b).length).prod ∧
    ((∀ o ∈ opts, blockExts t o b = []) → optProduct t opts b = [b]) := by
  induction opts with
  | nil => exact ⟨rfl, fun _ => rfl⟩
  | cons o rest ih =>
    constructor
    · rw [optProduct, List.length_flatMap]
      have hcomp :
          (List.length ∘ fun b1 => (optProduct t rest b).map (mergeB b1)) =
            fun _ : Binding => (optProduct t rest b).length := by
        funext b1
        simp [Function.comp]
      rw [hcomp, sum_map_const_nat, List.map_cons, List.prod_cons, ih.1]
      congr 1
      by_cases h : (blockExts t o b).isEmpty
      · simp [optChoices, h, List.isEmpty_iff.mp h]
      · simp [optChoices, h]
    · intro hall
      have h1 : blockExts t o b = [] := hall o (by simp)
      have hr : ∀ o' ∈ rest, blockExts t o' b = [] := fun o' ho' => hall o' (by simp [ho'])
      rw [optProduct, show optChoices t o b = [b] from by simp [optChoices, h1], ih.2 hr]
      simp [mergeB_self]

set_option maxRecDepth 1000000 in
/-- Witness for C3: on the Cartesian OPTIONAL tree the two blocks have
2 × 1 extensions, giving exactly 2 outputs; on the two-verb tree the
OPTIONAL block over `running` has zero extensions and the binding is
emitted once, unchanged. -/
theorem claim3_witness :
    (optProduct cpTree crossPat.optionals [some 1, none, none]).length = 2 ∧
    optProduct mvTree optPat.optionals [some 3, none] = [[some 3, none]] :=
  ⟨(claim3_optional_product cpTree crossPat.optionals [some 1, none, none]).1.trans
      (by decide),
    (claim3_optional_product mvTree optPat.optionals [some 3, none]).2 (by decide)⟩

/-- Claim C4: in the tree of a well-formed CoNLL-U sentence, the word
at position `i` has `id = i` and `tokenId = i + 1` (the 1-based
CoNLL-U identifier). -/
theorem claim4_word_index_invariant (lines : List (List Char)) (t : Tree)
    (hwf : wellFormed lines = true) (hbuild : buildSentence lines = some t)
    (i : Nat) (w : Word) (hw : t.word i = .ok w) :
    w.id = i ∧ w.tokenId = i + 1 := by
  cases hc : collectLines lines with
  | none => rw [wellFormed, hc] at hwf; exact absurd hwf (by simp)
  | some mt =>
    obtain ⟨meta, toks⟩ := mt
    rw [wellFormed, hc] at hwf
    rw [Bool.and_eq_true, Bool.and_eq_true] at hwf
    have hids : idsFrom 1 toks = true := hwf.1.2
    simp only [buildSentence, hc] at hbuild
    by_cases hemp : toks.isEmpty = true
    · simp [hemp] at hbuild
    · simp only [hemp, Bool.false_eq_true, if_false] at hbuild
      by_cases hstr : structuralOk (buildWords 0 toks) = true
      · simp only [hstr, if_true] at hbuild
        obtain rfl : ({ words := buildWords 0 toks, metadata := meta } : Tree) = t :=
          Option.some.inj hbuild
        simp only [Tree.word, List.get?_eq_getElem?, buildWords_get? 0 toks i] at hw
        cases hg : toks[i]? with
        | none => rw [hg] at hw; simp at hw
        | some tk =>
          rw [hg] at hw
          simp only [Option.map_some'] at hw
          have hmk : mkWord (0 + i) tk = w := by
            cases hw' : (Except.ok (mkWord (0 + i) tk) : Except String Word) <;>
              simp_all
          have hid := idsFrom_get? 1 toks hids i tk hg
          constructor
          · rw [← hmk]; simp [mkWord]
          · rw [← hmk]; simp [mkWord]; omega
      · simp [hstr] at hbuild

set_option maxRecDepth 100000 in
/-- Witness for C4 on the sample sentence: the word at position 1
(`helped`) has id 1 and token id 2. -/
theorem claim4_witness :
    wHelped.id = 1 ∧ wHelped.tokenId = 1 + 1 :=
  claim4_word_index_invariant sampleLines sampleTree (by decide) (by rfl) 1 wHelped (by rfl)

/-- Claim C5: the builder converts the CoNLL-U head from 1-based
token-id to 0-based index by subtracting one, head 0 becoming absent:
a parsed word's `head` is `none` exactly when its raw head is 0, in
which case `parent()` is `none`; otherwise `head` points at the
0-based index of the parent word, and `parent()` returns the word at
that index. -/
theorem claim5_head_conversion (lines : List (List Char))
    (meta : List (String × String)) (toks : List RawTok) (t : Tree)
    (hc : collectLines lines = some (meta, toks))
    (hbuild : buildSentence lines = some t)
    (i : Nat) (w : Word) (hw : t.word i = .ok w) :
    (∃ tk, toks[i]? = some tk ∧
      w.head = (if tk.rhead = 0 then none else some (tk.rhead - 1))) ∧
    (w.head = none → Word.parent t w = none) ∧
    (∀ h, w.head = some h → ∃ pw, Word.parent t w = some pw ∧ pw.id = h) := by
  simp only [buildSentence, hc] at hbuild
  by_cases hemp : toks.isEmpty = true
  · simp [hemp] at hbuild
  · simp only [hemp, Bool.false_eq_true, if_false] at hbuild
    by_cases hstr : structuralOk (buildWords 0 toks) = true
    · simp only [hstr, if_true] at hbuild
      obtain rfl : ({ words := buildWords 0 toks, metadata := meta } : Tree) = t :=
        Option.some.inj hbuild
      simp only [Tree.word, List.get?_eq_getElem?, buildWords_get? 0 toks i] at hw
      cases hg : toks[i]? with
      | none => rw [hg] at hw; simp at hw
      | some tk =>
        rw [hg] at hw
        simp only [Option.map_some'] at hw
        have hmk : mkWord (0 + i) tk = w := by
          cases hw' : (Except.ok (mkWord (0 + i) tk) : Except String Word) <;> simp_all
        have hok : headsOkFrom (buildWords 0 toks).length 0 (buildWords 0 toks) = true := by
          rw [structuralOk, Bool.and_eq_true, Bool.and_eq_true] at hstr
          exact hstr.1.1
        refine ⟨⟨tk, rfl, by rw [← hmk]; simp [mkWord]⟩, ?_, ?_⟩
        · intro hnone
          simp [Word.parent, hnone]
        · intro h hsome
          have hwget : (buildWords 0 toks)[i]? = some w := by
            rw [buildWords_get? 0 toks i, hg, Option.map_some', hmk]
          have hb := headsOkFrom_get? (buildWords 0 toks).length 0 (buildWords 0 toks)
            hok i w hwget h hsome
          have hlt : h < toks.length := by
            have := hb.1
            rwa [buildWords_length] at this
          cases hg2 : toks[h]? with
          | none =>
            exact absurd (List.getElem?_eq_none_iff.mp hg2) (by omega)
          | some tk2 =>
            refine ⟨mkWord h tk2, ?_, by simp [mkWord]⟩
            simp only [Word.parent, hsome]
            show (buildWords 0 toks).get? h = some (mkWord h tk2)
            rw [List.get?_eq_getElem?, buildWords_get? 0 toks h, hg2, Option.map_some']
            simp
    · simp [hstr] at hbuild

set_option maxRecDepth 100000 in
/-- Witness for C5 on the sample sentence: `He` (raw head 2) has head
index 1 and parent `helped` at index 1; the root `helped` (raw head 0)
has no head and no parent. -/
theorem claim5_witness :
    (∃ pw, Word.parent sampleTree wHe = some pw ∧ pw.id = 1) ∧
    Word.parent sampleTree wHelped = none :=
  ⟨(claim5_head_conversion sampleLines sampleMeta sampleToks sampleTree (by rfl) (by rfl)
      0 wHe (by rfl)).2.2 1 (by decide),
    (claim5_head_conversion sampleLines sampleMeta sampleToks sampleTree (by rfl) (by rfl)
      1 wHelped (by rfl)).2.1 (by decide)⟩

/-- Claim C6: the emitted binding sequence is a deterministic function
of tree and pattern (the matcher is a pure function, so two runs give
the same sequence), and within every plan step the candidate word
indices are enumerated in strictly ascending order. -/
theorem claim6_deterministic_order :
    (∀ (t : Tree) (p : Pattern), searchTree t p = searchTree t p) ∧
    (∀ (t : Tree) (cb : CBlock) (b : Binding) (v : Nat),
      List.Pairwise (· < ·) (candList t cb b v)) := by
  refine ⟨fun _ _ => rfl, fun t cb b v => ?_⟩
  unfold candList
  apply List.Pairwise.filter
  unfold seedCandidates
  split
  · exact List.Pairwise.filter _ (List.pairwise_lt_range _)
  · split
    · cases (t.wordAt _).head <;> simp [Option.toList]
    · exact List.pairwise_lt_range _

/-- Claim C8: a gzip-compressed file (detected from its magic bytes)
yields exactly the same trees as an uncompressed file with the same
content, and therefore exactly the same search matches for any
pattern. -/
theorem claim8_gzip_transparent (content : List Char) (p : Pattern)
    (hpl : content.take 2 ≠ [gzipMagic1, gzipMagic2]) :
    readTrees (gzipFileOf content) = readTrees content ∧
    searchTreebank (readTrees (gzipFileOf content)) p =
      searchTreebank (readTrees content) p := by
  have hplain : readFileData content = content := by
    cases content with
    | nil => rfl
    | cons c1 rest =>
      cases rest with
      | nil => rfl
      | cons c2 rest2 =>
        rw [readFileData]
        by_cases h1 : c1 = gzipMagic1
        · by_cases h2 : c2 = gzipMagic2
          · exact absurd (by rw [h1, h2]; simp) hpl
          · rw [if_neg (by simp [h1, h2])]
        · rw [if_neg (by simp [h1])]
  have hgz : readFileData (gzipFileOf content) = content := readFileData_gzip content
  constructor
  · rw [readTrees, readTrees, hgz, hplain]
  · rw [readTrees, readTrees, hgz, hplain]

set_option maxRecDepth 1000000 in
/-- Witness for C8 at the sample CoNLL-U content: compressing and
reading back gives the same trees, and the verb query finds the same
matches. -/
theorem claim8_witness :
    readTrees (gzipFileOf sampleConllu.data) = readTrees sampleConllu.data ∧
    searchTreebank (readTrees (gzipFileOf sampleConllu.data)) verbPat =
      searchTreebank (readTrees sampleConllu.data) verbPat :=
  claim8_gzip_transparent sampleConllu.data verbPat (by decide)

set_option maxRecDepth 100000 in
/-- Witness for C10: index 999 errors on the six-word sample tree,
and index 0 returns the first word. -/
theorem claim10_witness :
    (sampleTree.word 999 = .error ("word index out of range: " ++ toString 999) ∧
      sampleTree.getItem 999 = .error ("word index out of range: " ++ toString 999)) ∧
    sampleTree.word 0 = .ok (sampleTree.words.get ⟨0, by decide⟩) :=
  ⟨(claim10_word_range sampleTree 999).1 (by decide),
    ((claim10_word_range sampleTree 0).2 (by decide)).1⟩

end Treesearch
